import Mathlib

/-!
Verification development for the CLI option parser in src/src/lib.rs.

Rust strings are modelled at the byte level (lists of naturals in 0..256),
because the scanner's short-form branch uses the byte-indexed
`str::split_at(2)`, which panics when byte index 2 is not a UTF-8
character boundary.  HashMaps are modelled as association lists (insert
replaces an existing binding, otherwise appends); iteration order of
`help_text` over options is unspecified in Rust, and the association-list
order is one admissible instantiation.  Panicking operations return
`Option`/a `Bool` panic flag; for `register_option` the state reached at
the moment of the panic is returned alongside the flag, so that claims
about partially-applied state can be stated.
-/

namespace CliSpec

/-- A Rust `String`, as its UTF-8 byte sequence. -/
abbrev Str := List Nat

/-- Lookup in an association list keyed by strings (models `HashMap` read). -/
def alLookup {α : Type} : List (Str × α) → Str → Option α
  | [], _ => none
  | (k, v) :: rest, key => if k = key then some v else alLookup rest key

/-- `HashMap::contains_key`. -/
def alContains {α : Type} (m : List (Str × α)) (key : Str) : Bool :=
  (alLookup m key).isSome

/-- `HashMap::insert`: replace the binding if the key is present, else add it. -/
def alInsert {α : Type} : List (Str × α) → Str → α → List (Str × α)
  | [], key, v => [(key, v)]
  | (k, w) :: rest, key, v =>
      if k = key then (key, v) :: rest else (k, w) :: alInsert rest key v

/-- `str::starts_with` on byte sequences. -/
def hasPrefix : Str → Str → Bool
  | [], _ => true
  | _ :: _, [] => false
  | p :: ps, b :: bs => (p == b) && hasPrefix ps bs

/-- `str::contains` for a single-byte (ASCII) pattern. -/
def hasByte : Str → Nat → Bool
  | [], _ => false
  | c :: rest, b => (c == b) || hasByte rest b

/-- `str::split` on a single-byte (ASCII) separator: the list of segments
between occurrences of the separator (always non-empty). -/
def splitOnByte (sep : Nat) : Str → List Str
  | [] => [[]]
  | b :: rest =>
      let r := splitOnByte sep rest
      if b = sep then [] :: r
      else
        match r with
        | [] => [[b]]
        | h :: t => (b :: h) :: t

/-- The first segment produced by `split` (the first `next()` on the
iterator; `split` always yields at least one segment). -/
def firstSeg : List Str → Str
  | [] => []
  | h :: _ => h

/-- The second segment produced by `split` (the second `next()`; the
default branches are unreachable when the separator occurs in the input). -/
def secondSeg : List Str → Str
  | [] => []
  | [_] => []
  | _ :: h :: _ => h

/-- A UTF-8 continuation byte (`0b10xxxxxx`). -/
def isContinuationByte (b : Nat) : Bool :=
  decide (128 ≤ b) && decide (b < 192)

/-- `str::is_char_boundary`: true at the ends of the string and at any byte
that is not a continuation byte; false past the end or mid-character.
`str::split_at(i)` panics exactly when this is false at `i`. -/
def isCharBoundary (s : Str) (i : Nat) : Bool :=
  if i = 0 then true
  else if i = s.length then true
  else
    match s.get? i with
    | some b => !(isContinuationByte b)
    | none => false

/-- `CliOption` (src/src/lib.rs, lines 19-24). -/
structure CliOption where
  long_form : Option Str
  short_form : Option Str
  help_text : Str
deriving DecidableEq

/-- `OptionValue` (src/src/lib.rs, lines 27-31). -/
structure OptionValue where
  is_enabled : Bool
  values : List Str
deriving DecidableEq

/-- `CliOptionParser` (src/src/lib.rs, lines 49-57).  The constant
`empty_option_list` field is always the empty list and is inlined into
`get_option_values`. -/
structure CliOptionParser where
  name_to_cli_option_map : List (Str × CliOption)
  name_to_option_value_map : List (Str × OptionValue)
  short_form_to_name_map : List (Str × Str)
  long_form_to_name_map : List (Str × Str)
  header : Str
  footer : Str
deriving DecidableEq

/-- `CliOptionParser::new` (lines 70-80). -/
def new (header footer : Str) : CliOptionParser :=
  { name_to_cli_option_map := []
    name_to_option_value_map := []
    short_form_to_name_map := []
    long_form_to_name_map := []
    header := header
    footer := footer }

/-- `CliOptionParser::enable_option` (lines 83-93): get-or-insert the
value-state entry (default disabled, no values), then set its flag true. -/
def enable_option (p : CliOptionParser) (option_name : Str) : CliOptionParser :=
  let cur := (alLookup p.name_to_option_value_map option_name).getD
    { is_enabled := false, values := [] }
  let m := alInsert p.name_to_option_value_map option_name
    { cur with is_enabled := true }
  { p with name_to_option_value_map := m }

/-- `CliOptionParser::add_value_to_option` (lines 96-107): get-or-insert the
value-state entry, push the value, then set the flag true. -/
def add_value_to_option (p : CliOptionParser) (option_name value : Str) :
    CliOptionParser :=
  let cur := (alLookup p.name_to_option_value_map option_name).getD
    { is_enabled := false, values := [] }
  let m := alInsert p.name_to_option_value_map option_name
    { is_enabled := true, values := cur.values ++ [value] }
  { p with name_to_option_value_map := m }

/-- One iteration of the `for arg in args` loop of `parse_from`
(lines 113-155).  Returns `none` when the iteration panics (the
`split_at(2)` call on a non-boundary), otherwise the updated parser state
and the tokens pushed onto `arguments` (empty or the singleton `[arg]`).
The `unwrap`s on the `split("=")` iterator are guarded by `contains("=")`,
which guarantees at least two segments, so they are modelled by total
head-with-default selections that are never taken at their defaults. -/
def parseStep (p : CliOptionParser) (arg : Str) :
    Option (CliOptionParser × List Str) :=
  if hasPrefix [45, 45] arg then
    if hasByte arg 61 then
      let parts := splitOnByte 61 arg
      let optionText := firstSeg parts
      let valueText := secondSeg parts
      if alContains p.long_form_to_name_map optionText then
        some (add_value_to_option p
          ((alLookup p.long_form_to_name_map optionText).getD []) valueText, [])
      else some (p, [])
    else
      if alContains p.long_form_to_name_map arg then
        some (enable_option p ((alLookup p.long_form_to_name_map arg).getD []), [])
      else some (p, [])
  else if hasPrefix [45] arg then
    if 1 < arg.length then
      if isCharBoundary arg 2 then
        let optionText := arg.take 2
        let valueText := arg.drop 2
        if alContains p.short_form_to_name_map optionText then
          some (add_value_to_option p
            ((alLookup p.short_form_to_name_map optionText).getD []) valueText, [])
        else some (p, [])
      else none
    else
      if alContains p.short_form_to_name_map arg then
        some (enable_option p ((alLookup p.short_form_to_name_map arg).getD []), [])
      else some (p, [])
  else
    some (p, [arg])

/-- The `for` loop of `parse_from`, threading the parser state and the
`arguments` accumulator. -/
def parseFromGo (p : CliOptionParser) (acc : List Str) :
    List Str → Option (CliOptionParser × List Str)
  | [] => some (p, acc)
  | arg :: rest =>
      match parseStep p arg with
      | none => none
      | some (q, out) => parseFromGo q (acc ++ out) rest

/-- `CliOptionParser::parse_from` (lines 110-158).  `none` models a panic;
otherwise the final state and the returned positional arguments. -/
def parse_from (p : CliOptionParser) (args : List Str) :
    Option (CliOptionParser × List Str) :=
  parseFromGo p [] args

/-- `CliOptionParser::is_enabled` (lines 166-172). -/
def is_enabled (p : CliOptionParser) (name : Str) : Bool :=
  match alLookup p.name_to_option_value_map name with
  | none => false
  | some ov => ov.is_enabled

/-- `CliOptionParser::get_option_values` (lines 175-181): the shared empty
list when not enabled, else the stored values (the entry exists whenever
`is_enabled` is true, so the default branch is never taken). -/
def get_option_values (p : CliOptionParser) (name : Str) : List Str :=
  if is_enabled p name then
    ((alLookup p.name_to_option_value_map name).getD
      { is_enabled := false, values := [] }).values
  else []

/-- The values stored for a name (empty when no entry exists). -/
def valuesOf (p : CliOptionParser) (name : Str) : List Str :=
  ((alLookup p.name_to_option_value_map name).getD
    { is_enabled := false, values := [] }).values

/-- Tail of `register_option` (lines 226-241): record the definition and
initialise the value-state entry, then return successfully. -/
def registerFinish (p : CliOptionParser) (short_form long_form : Option Str)
    (help_text name : Str) : CliOptionParser × Bool :=
  let defs := alInsert p.name_to_cli_option_map name
    { long_form := long_form, short_form := short_form, help_text := help_text }
  let vals := alInsert p.name_to_option_value_map name
    { is_enabled := false, values := [] }
  ({ p with name_to_cli_option_map := defs, name_to_option_value_map := vals },
    false)

/-- Long-form block of `register_option` (lines 214-224): check the
long-form collision (panic, flag `true`) and otherwise insert the reverse
binding. -/
def registerLongPhase (p : CliOptionParser) (short_form long_form : Option Str)
    (help_text name : Str) : CliOptionParser × Bool :=
  match long_form with
  | some l =>
      if alContains p.long_form_to_name_map l then (p, true)
      else
        registerFinish
          { p with long_form_to_name_map :=
              alInsert p.long_form_to_name_map l name }
          short_form long_form help_text name
  | none => registerFinish p short_form long_form help_text name

/-- `CliOptionParser::register_option` (lines 184-242).  The `Bool`
component is `true` when the call panics; the parser component is the
state at the moment of the panic (the short-form reverse binding is
inserted before the long-form collision check, so that state can differ
from the input).  (`register_option` is a reserved command name in Lean,
so the definition is named `registerOption`.) -/
def registerOption (p : CliOptionParser) (short_form long_form : Option Str)
    (help_text name : Str) : CliOptionParser × Bool :=
  if alContains p.name_to_cli_option_map name then (p, true)
  else if short_form.isNone && long_form.isNone then (p, true)
  else
    match short_form with
    | some s =>
        if alContains p.short_form_to_name_map s then (p, true)
        else
          registerLongPhase
            { p with short_form_to_name_map :=
                alInsert p.short_form_to_name_map s name }
            short_form long_form help_text name
    | none => registerLongPhase p short_form long_form help_text name

/-- `help_text`'s `replace('\n', "\n\t\t\t")` at the byte level (valid UTF-8
never contains byte 10 inside a multi-byte character). -/
def replaceNewlines (s : Str) : Str :=
  s.flatMap fun b => if b = 10 then [10, 9, 9, 9] else [b]

/-- A form column of the help table: the form followed by four spaces, or
five spaces when the form is absent (lines 249-257). -/
def formCol : Option Str → Str
  | some s => s ++ [32, 32, 32, 32]
  | none => [32, 32, 32, 32, 32]

/-- `CliOptionParser::help_text` (lines 245-266), as the string-accumulating
loop of the source. -/
def help_text (p : CliOptionParser) : Str :=
  let init := p.header ++ [10, 10]
  let afterOptions := p.name_to_cli_option_map.foldl
    (fun acc kv =>
      acc ++ formCol kv.2.short_form ++ formCol kv.2.long_form ++
        [32, 32, 32, 32, 32] ++ replaceNewlines kv.2.help_text ++ [10])
    init
  afterOptions ++ [10] ++ p.footer ++ [10, 10]

/-- The help line of a single registered option, as described by the spec:
short-form column, long-form column, separator spaces, the help text with
every newline followed by the tab continuation indent, then a newline. -/
def optionLine (o : CliOption) : Str :=
  formCol o.short_form ++ formCol o.long_form ++ [32, 32, 32, 32, 32] ++
    replaceNewlines o.help_text ++ [10]

/-- Whether a `-`-prefixed token's option text resolves to a registered
form, following the branch the scanner takes for it. -/
def tokenResolves (p : CliOptionParser) (arg : Str) : Bool :=
  if hasPrefix [45, 45] arg then
    if hasByte arg 61 then
      alContains p.long_form_to_name_map (firstSeg (splitOnByte 61 arg))
    else alContains p.long_form_to_name_map arg
  else if hasPrefix [45] arg then
    if 1 < arg.length then alContains p.short_form_to_name_map (arg.take 2)
    else alContains p.short_form_to_name_map arg
  else false

/-- A token on which the scanner's single panic site is safe: either it
does not take the short-form value branch, or byte index 2 is a character
boundary.  Every ASCII token is safe. -/
def argSafe (arg : Str) : Bool :=
  if hasPrefix [45, 45] arg then true
  else if hasPrefix [45] arg then
    if 1 < arg.length then isCharBoundary arg 2 else true
  else true

/-- The per-entry invariant of the value-state table: a non-empty value
list implies the enabled flag. -/
def ValuesInv (p : CliOptionParser) : Prop :=
  ∀ kv ∈ p.name_to_option_value_map,
    kv.2.values ≠ [] → kv.2.is_enabled = true

instance (p : CliOptionParser) : Decidable (ValuesInv p) := by
  unfold ValuesInv; infer_instance

/-- `alInsert` followed by the short-form/long-form insertion of an optional
form, as performed by a successful registration. -/
def optInsert (m : List (Str × Str)) (o : Option Str) (nm : Str) :
    List (Str × Str) :=
  match o with
  | some k => alInsert m k nm
  | none => m

theorem alLookup_alInsert {α : Type} (m : List (Str × α)) (k : Str) (v : α)
    (k' : Str) :
    alLookup (alInsert m k v) k' = if k = k' then some v else alLookup m k' := by
  induction m with
  | nil => simp [alInsert, alLookup]
  | cons kv rest ih =>
      obtain ⟨k0, v0⟩ := kv
      simp only [alInsert]
      by_cases h1 : k0 = k
      · subst h1
        by_cases h2 : k0 = k'
        · subst h2; simp [alLookup]
        · simp [alLookup, h2]
      · by_cases h2 : k0 = k'
        · subst h2
          have hk : ¬ k = k0 := fun h => h1 h.symm
          simp [alLookup, h1, hk]
        · simp [alLookup, h1, h2, ih]

theorem mem_alInsert {α : Type} (m : List (Str × α)) (k : Str) (v : α)
    (kv : Str × α) (h : kv ∈ alInsert m k v) : kv = (k, v) ∨ kv ∈ m := by
  induction m with
  | nil => simpa [alInsert] using h
  | cons kv0 rest ih =>
      obtain ⟨k0, v0⟩ := kv0
      simp only [alInsert] at h
      by_cases h1 : k0 = k
      · simp [h1] at h
        rcases h with h | h
        · left; simp [h]
        · right; simp [h]
      · simp [h1] at h
        rcases h with h | h
        · right; simp [h]
        · rcases ih h with h2 | h2
          · left; exact h2
          · right; simp [h2]

theorem lookup_enable_option (p : CliOptionParser) (n n' : Str) :
    alLookup (enable_option p n).name_to_option_value_map n' =
      if n = n' then some { is_enabled := true, values := valuesOf p n }
      else alLookup p.name_to_option_value_map n' := by
  simp only [enable_option, valuesOf, alLookup_alInsert]

theorem lookup_add_value (p : CliOptionParser) (n v n' : Str) :
    alLookup (add_value_to_option p n v).name_to_option_value_map n' =
      if n = n' then some { is_enabled := true, values := valuesOf p n ++ [v] }
      else alLookup p.name_to_option_value_map n' := by
  simp only [add_value_to_option, valuesOf, alLookup_alInsert]

theorem is_enabled_enable_option (p : CliOptionParser) (n n' : Str)
    (h : is_enabled p n' = true) : is_enabled (enable_option p n) n' = true := by
  simp only [is_enabled, lookup_enable_option]
  by_cases hn : n = n' <;> simp [hn]
  · simpa [is_enabled] using h

theorem is_enabled_add_value (p : CliOptionParser) (n v n' : Str)
    (h : is_enabled p n' = true) :
    is_enabled (add_value_to_option p n v) n' = true := by
  simp only [is_enabled, lookup_add_value]
  by_cases hn : n = n' <;> simp [hn]
  · simpa [is_enabled] using h

theorem hasPrefix_dash_of_ddash (a : Str) (h : hasPrefix [45, 45] a = true) :
    hasPrefix [45] a = true := by
  match a with
  | [] => simp [hasPrefix] at h
  | [b] => simp [hasPrefix] at h
  | b :: c :: t =>
      simp [hasPrefix] at h ⊢
      exact h.1

theorem parseStep_mono (p : CliOptionParser) (a : Str) (q : CliOptionParser)
    (out : List Str) (n : Str) (hs : parseStep p a = some (q, out))
    (he : is_enabled p n = true) : is_enabled q n = true := by
  simp only [parseStep] at hs
  repeat' split at hs
  all_goals
    first
      | (simp only [Option.some.injEq, Prod.mk.injEq] at hs
         obtain ⟨rfl, rfl⟩ := hs
         first
           | exact is_enabled_add_value _ _ _ _ he
           | exact is_enabled_enable_option _ _ _ he
           | exact he)
      | simp at hs

theorem parseFromGo_mono (n : Str) : ∀ (args : List Str) (p : CliOptionParser)
    (acc : List Str) (s : CliOptionParser) (pos : List Str),
    parseFromGo p acc args = some (s, pos) → is_enabled p n = true →
    is_enabled s n = true := by
  intro args
  induction args with
  | nil =>
      intro p acc s pos h he
      simp only [parseFromGo, Option.some.injEq, Prod.mk.injEq] at h
      obtain ⟨rfl, rfl⟩ := h
      exact he
  | cons a rest ih =>
      intro p acc s pos h he
      simp only [parseFromGo] at h
      cases hstep : parseStep p a with
      | none => rw [hstep] at h; simp at h
      | some qo =>
          obtain ⟨q, out⟩ := qo
          rw [hstep] at h
          exact ih q (acc ++ out) s pos h (parseStep_mono p a q out n hstep he)

theorem parseStep_out (p : CliOptionParser) (a : Str) (q : CliOptionParser)
    (out : List Str) (hs : parseStep p a = some (q, out)) :
    out = if hasPrefix [45] a = true then ([] : List Str) else [a] := by
  simp only [parseStep] at hs
  repeat' split at hs
  all_goals
    first
      | (simp only [Option.some.injEq, Prod.mk.injEq] at hs
         obtain ⟨rfl, rfl⟩ := hs
         first
           | simp [hasPrefix_dash_of_ddash a (by assumption)]
           | simp [*])
      | simp at hs

theorem parseFromGo_pos : ∀ (args : List Str) (p : CliOptionParser)
    (acc : List Str) (s : CliOptionParser) (pos : List Str),
    parseFromGo p acc args = some (s, pos) →
    pos = acc ++ args.filter (fun a => !(hasPrefix [45] a)) := by
  intro args
  induction args with
  | nil =>
      intro p acc s pos h
      simp only [parseFromGo, Option.some.injEq, Prod.mk.injEq] at h
      obtain ⟨rfl, rfl⟩ := h
      simp
  | cons a rest ih =>
      intro p acc s pos h
      simp only [parseFromGo] at h
      cases hstep : parseStep p a with
      | none => rw [hstep] at h; simp at h
      | some qo =>
          obtain ⟨q, out⟩ := qo
          rw [hstep] at h
          have hout := parseStep_out p a q out hstep
          have hrest := ih q (acc ++ out) s pos h
          by_cases hp : hasPrefix [45] a = true
          · simp [hp] at hout
            subst hout
            simp [hrest, List.filter_cons, hp]
          · simp [hp] at hout
            subst hout
            simp [hrest, List.filter_cons, hp]

theorem parseStep_safe (p : CliOptionParser) (a : Str)
    (h : argSafe a = true) : (parseStep p a).isSome = true := by
  simp only [parseStep, argSafe] at *
  repeat' split
  all_goals simp_all

theorem parseFromGo_safe : ∀ (args : List Str) (p : CliOptionParser)
    (acc : List Str), (∀ a ∈ args, argSafe a = true) →
    (parseFromGo p acc args).isSome = true := by
  intro args
  induction args with
  | nil => intro p acc _; simp [parseFromGo]
  | cons a rest ih =>
      intro p acc h
      simp only [parseFromGo]
      cases hstep : parseStep p a with
      | none =>
          have := parseStep_safe p a (h a (by simp))
          rw [hstep] at this
          simp at this
      | some qo =>
          obtain ⟨q, out⟩ := qo
          exact ih q (acc ++ out) fun b hb => h b (by simp [hb])

theorem parseStep_unknown (p : CliOptionParser) (a : Str)
    (h1 : hasPrefix [45] a = true) (h2 : tokenResolves p a = false)
    (h3 : argSafe a = true) : parseStep p a = some (p, []) := by
  by_cases hdd : hasPrefix [45, 45] a = true
  · by_cases heq : hasByte a 61 = true
    · have h4 : alContains p.long_form_to_name_map
          (firstSeg (splitOnByte 61 a)) = false := by
        simpa [tokenResolves, hdd, heq] using h2
      simp [parseStep, hdd, heq, h4]
    · have h4 : alContains p.long_form_to_name_map a = false := by
        simpa [tokenResolves, hdd, heq] using h2
      simp [parseStep, hdd, heq, h4]
  · by_cases hlen : 1 < a.length
    · have hb : isCharBoundary a 2 = true := by
        simpa [argSafe, hdd, h1, hlen] using h3
      have h4 : alContains p.short_form_to_name_map (a.take 2) = false := by
        simpa [tokenResolves, hdd, h1, hlen] using h2
      simp [parseStep, hdd, h1, hlen, hb, h4]
    · have h4 : alContains p.short_form_to_name_map a = false := by
        simpa [tokenResolves, hdd, h1, hlen] using h2
      simp [parseStep, hdd, h1, hlen, h4]

theorem valuesInv_enable_option (p : CliOptionParser) (n : Str)
    (h : ValuesInv p) : ValuesInv (enable_option p n) := by
  intro kv hkv
  simp only [enable_option] at hkv
  rcases mem_alInsert _ _ _ _ hkv with h1 | h1
  · subst h1; intro; rfl
  · exact h kv h1

theorem valuesInv_add_value (p : CliOptionParser) (n v : Str)
    (h : ValuesInv p) : ValuesInv (add_value_to_option p n v) := by
  intro kv hkv
  simp only [add_value_to_option] at hkv
  rcases mem_alInsert _ _ _ _ hkv with h1 | h1
  · subst h1; intro; rfl
  · exact h kv h1

theorem valuesInv_registerFinish (p : CliOptionParser)
    (sf lf : Option Str) (ht nm : Str) (h : ValuesInv p) :
    ValuesInv (registerFinish p sf lf ht nm).1 := by
  intro kv hkv
  simp only [registerFinish] at hkv
  rcases mem_alInsert _ _ _ _ hkv with h1 | h1
  · subst h1; intro hne; exact absurd rfl hne
  · exact h kv h1

theorem valuesInv_registerLongPhase (p : CliOptionParser)
    (sf lf : Option Str) (ht nm : Str) (h : ValuesInv p) :
    ValuesInv (registerLongPhase p sf lf ht nm).1 := by
  cases lf with
  | none => exact valuesInv_registerFinish p sf none ht nm h
  | some l =>
      simp only [registerLongPhase]
      split
      · exact h
      · exact valuesInv_registerFinish _ sf (some l) ht nm h

theorem valuesInv_registerOption (p : CliOptionParser)
    (sf lf : Option Str) (ht nm : Str) (h : ValuesInv p) :
    ValuesInv (registerOption p sf lf ht nm).1 := by
  simp only [registerOption]
  split
  · exact h
  · split
    · exact h
    · cases sf with
      | none => exact valuesInv_registerLongPhase p none lf ht nm h
      | some s =>
          simp only
          split
          · exact h
          · exact valuesInv_registerLongPhase _ (some s) lf ht nm h

theorem valuesInv_parseStep (p : CliOptionParser) (a : Str)
    (q : CliOptionParser) (out : List Str) (hs : parseStep p a = some (q, out))
    (h : ValuesInv p) : ValuesInv q := by
  simp only [parseStep] at hs
  repeat' split at hs
  all_goals
    first
      | (simp only [Option.some.injEq, Prod.mk.injEq] at hs
         obtain ⟨rfl, rfl⟩ := hs
         first
           | exact valuesInv_add_value _ _ _ h
           | exact valuesInv_enable_option _ _ h
           | exact h)
      | simp at hs

theorem valuesInv_parseFromGo : ∀ (args : List Str) (p : CliOptionParser)
    (acc : List Str) (s : CliOptionParser) (pos : List Str),
    parseFromGo p acc args = some (s, pos) → ValuesInv p → ValuesInv s := by
  intro args
  induction args with
  | nil =>
      intro p acc s pos h hv
      simp only [parseFromGo, Option.some.injEq, Prod.mk.injEq] at h
      obtain ⟨rfl, rfl⟩ := h
      exact hv
  | cons a rest ih =>
      intro p acc s pos h hv
      simp only [parseFromGo] at h
      cases hstep : parseStep p a with
      | none => rw [hstep] at h; simp at h
      | some qo =>
          obtain ⟨q, out⟩ := qo
          rw [hstep] at h
          exact ih q (acc ++ out) s pos h (valuesInv_parseStep p a q out hstep hv)

theorem registerOption_dup_eq (p : CliOptionParser) (sf lf : Option Str)
    (ht nm : Str) (h : alContains p.name_to_cli_option_map nm = true) :
    registerOption p sf lf ht nm = (p, true) := by
  simp [registerOption, h]

theorem registerOption_noforms_eq (p : CliOptionParser) (ht nm : Str)
    (h : alContains p.name_to_cli_option_map nm = false) :
    registerOption p none none ht nm = (p, true) := by
  simp [registerOption, h]

theorem registerOption_shortcoll_eq (p : CliOptionParser) (s : Str)
    (lf : Option Str) (ht nm : Str)
    (h : alContains p.name_to_cli_option_map nm = false)
    (hs : alContains p.short_form_to_name_map s = true) :
    registerOption p (some s) lf ht nm = (p, true) := by
  simp [registerOption, h, hs]

theorem registerOption_longcoll_none_eq (p : CliOptionParser) (l : Str)
    (ht nm : Str) (h : alContains p.name_to_cli_option_map nm = false)
    (hl : alContains p.long_form_to_name_map l = true) :
    registerOption p none (some l) ht nm = (p, true) := by
  simp [registerOption, registerLongPhase, h, hl]

theorem registerOption_longcoll_some_eq (p : CliOptionParser) (s l : Str)
    (ht nm : Str) (h : alContains p.name_to_cli_option_map nm = false)
    (hs : alContains p.short_form_to_name_map s = false)
    (hl : alContains p.long_form_to_name_map l = true) :
    registerOption p (some s) (some l) ht nm =
      ({ p with short_form_to_name_map :=
          alInsert p.short_form_to_name_map s nm }, true) := by
  simp [registerOption, registerLongPhase, h, hs, hl]

theorem registerOption_success_eq (p : CliOptionParser) (sf lf : Option Str)
    (ht nm : Str) (hname : alContains p.name_to_cli_option_map nm = false)
    (hboth : (sf.isSome || lf.isSome) = true)
    (hshort : ∀ s, sf = some s → alContains p.short_form_to_name_map s = false)
    (hlong : ∀ l, lf = some l → alContains p.long_form_to_name_map l = false) :
    registerOption p sf lf ht nm =
      ({ name_to_cli_option_map := alInsert p.name_to_cli_option_map nm
           { long_form := lf, short_form := sf, help_text := ht }
         name_to_option_value_map := alInsert p.name_to_option_value_map nm
           { is_enabled := false, values := [] }
         short_form_to_name_map := optInsert p.short_form_to_name_map sf nm
         long_form_to_name_map := optInsert p.long_form_to_name_map lf nm
         header := p.header
         footer := p.footer }, false) := by
  cases sf with
  | none =>
      cases lf with
      | none => simp at hboth
      | some l =>
          have hl := hlong l rfl
          simp [registerOption, registerLongPhase, registerFinish, optInsert,
            hname, hl]
  | some s =>
      have hs := hshort s rfl
      cases lf with
      | none =>
          simp [registerOption, registerLongPhase, registerFinish, optInsert,
            hname, hs]
      | some l =>
          have hl := hlong l rfl
          simp [registerOption, registerLongPhase, registerFinish, optInsert,
            hname, hs, hl]

theorem foldl_optionLine (l : List (Str × CliOption)) : ∀ init : Str,
    List.foldl
      (fun acc kv =>
        acc ++ formCol kv.2.short_form ++ formCol kv.2.long_form ++
          [32, 32, 32, 32, 32] ++ replaceNewlines kv.2.help_text ++ [10])
      init l =
    init ++ (l.map (fun kv => optionLine kv.2)).flatten := by
  induction l with
  | nil => intro init; simp
  | cons x t ih =>
      intro init
      rw [List.foldl_cons, ih]
      simp [optionLine, List.append_assoc]

/-- The long form `--opt`. -/
def exLongOpt : Str := [45, 45, 111, 112, 116]

/-- The option name `opt`. -/
def exOptName : Str := [111, 112, 116]

/-- A parser with one option `opt` registered under long form `--opt`. -/
def exParserC1 : CliOptionParser :=
  (registerOption (new [] []) none (some exLongOpt) [] exOptName).1

/-- The token `--opt=a=b`. -/
def exTokenC1 : Str := [45, 45, 111, 112, 116, 61, 97, 61, 98]

/-- The parser state and positional output after scanning `--opt=a=b`. -/
def exResultC1 : CliOptionParser × List Str :=
  (parse_from exParserC1 [exTokenC1]).getD (exParserC1, [])

/-- C1, counterexample: scanning `--opt=a=b` with `--opt` registered appends
the value `a` (the segment between the first and second `=`), not the whole
remainder `a=b` that the claim states. -/
theorem claim1_counterexample :
    get_option_values exResultC1.1 exOptName = [[97]] ∧
    get_option_values exResultC1.1 exOptName ≠ [[97, 61, 98]] := by decide

/-- C1, amended: for a scanned token that starts with `--` and contains `=`,
when the text left of the first `=` resolves through the long-form table,
the single value appended to the resolved option's values is the segment of
the token strictly between the first `=` and the following `=` (the entire
remainder only when no further `=` exists); text after a second `=` is
dropped. -/
theorem claim1_value_is_second_segment (p : CliOptionParser) (a nm : Str)
    (h1 : hasPrefix [45, 45] a = true)
    (h2 : hasByte a 61 = true)
    (h3 : alLookup p.long_form_to_name_map
      (firstSeg (splitOnByte 61 a)) = some nm) :
    parse_from p [a] =
      some (add_value_to_option p nm (secondSeg (splitOnByte 61 a)), []) ∧
    get_option_values
        (add_value_to_option p nm (secondSeg (splitOnByte 61 a))) nm =
      valuesOf p nm ++ [secondSeg (splitOnByte 61 a)] := by
  constructor
  · have hc : alContains p.long_form_to_name_map
        (firstSeg (splitOnByte 61 a)) = true := by
      simp [alContains, h3]
    simp [parse_from, parseFromGo, parseStep, h1, h2, hc, h3]
  · simp [get_option_values, is_enabled, lookup_add_value]

/-- C1, witness: the amended statement applied to the parser with `--opt`
registered and the token `--opt=a=b`. -/
theorem claim1_witness :
    hasPrefix [45, 45] exTokenC1 = true ∧
    hasByte exTokenC1 61 = true ∧
    alLookup exParserC1.long_form_to_name_map
      (firstSeg (splitOnByte 61 exTokenC1)) = some exOptName ∧
    (parse_from exParserC1 [exTokenC1] =
        some (add_value_to_option exParserC1 exOptName
          (secondSeg (splitOnByte 61 exTokenC1)), []) ∧
      get_option_values
          (add_value_to_option exParserC1 exOptName
            (secondSeg (splitOnByte 61 exTokenC1))) exOptName =
        valuesOf exParserC1 exOptName ++
          [secondSeg (splitOnByte 61 exTokenC1)]) :=
  ⟨by decide, by decide, by decide,
    claim1_value_is_second_segment exParserC1 exTokenC1 exOptName
      (by decide) (by decide) (by decide)⟩

/-- C2, counterexample: `parse_from` is not total on arbitrary input — on
the well-formed non-ASCII token `-é` (UTF-8 bytes `[45, 195, 169]`) the
short-form branch's byte-indexed `split_at(2)` falls inside the two-byte
character and panics, modelled as `none`. -/
theorem claim2_counterexample :
    parse_from (new [104] [102]) [[45, 195, 169]] = none := by decide

/-- C2, amended: `parse_from` never fails on any token sequence in which
every token that takes the short-form value branch can be split at byte
index 2 (in particular on all ASCII input, however malformed or
unregistered); it returns the positional tokens — exactly those not
starting with `-` — in order, discarding unknown option-like tokens. -/
theorem claim2_total_on_boundary_safe (p : CliOptionParser) (args : List Str)
    (h : ∀ a ∈ args, argSafe a = true) :
    ∃ s pos, parse_from p args = some (s, pos) ∧
      pos = args.filter (fun a => !(hasPrefix [45] a)) := by
  have hs : (parse_from p args).isSome = true := parseFromGo_safe args p [] h
  cases hopt : parse_from p args with
  | none => rw [hopt] at hs; simp at hs
  | some sp =>
      obtain ⟨s, pos⟩ := sp
      refine ⟨s, pos, rfl, ?_⟩
      have := parseFromGo_pos args p [] s pos hopt
      simpa using this

/-- C2, witness: the amended statement applied to a mixed sequence of a
positional token, an unknown long flag and an unknown short flag. -/
theorem claim2_witness :
    (∀ a ∈ [[104, 105], [45, 45, 120], [45, 99]], argSafe a = true) ∧
    (∃ s pos,
      parse_from (new [] []) [[104, 105], [45, 45, 120], [45, 99]] =
        some (s, pos) ∧
      pos = [[104, 105], [45, 45, 120], [45, 99]].filter
        (fun a => !(hasPrefix [45] a))) :=
  ⟨by decide,
    claim2_total_on_boundary_safe (new [] [])
      [[104, 105], [45, 45, 120], [45, 99]] (by decide)⟩

/-- A parser with the option `count` registered under short form `-c` and
long form `--count`. -/
def exParserC5 : CliOptionParser :=
  (registerOption (new [104] [102]) (some [45, 99])
    (some [45, 45, 99, 111, 117, 110, 116]) [] [99, 111, 117, 110, 116]).1

/-- The token sequence `["-c123", "--count=456"]`. -/
def exArgsC5 : List Str :=
  [[45, 99, 49, 50, 51], [45, 45, 99, 111, 117, 110, 116, 61, 52, 53, 54]]

/-- The parser state after scanning `["-c123", "--count=456"]`. -/
def exStateC5 : CliOptionParser :=
  ((parse_from exParserC5 exArgsC5).getD (exParserC5, [])).1

/-- C5: after scanning `["-c123", "--count=456"]` against the option
`count` (short `-c`, long `--count`), the scan succeeds, `is_enabled`
holds for `count`, and its collected values are exactly `["123", "456"]`
in that order. -/
theorem claim5_example_scan :
    (parse_from exParserC5 exArgsC5).isSome = true ∧
    is_enabled exStateC5 [99, 111, 117, 110, 116] = true ∧
    get_option_values exStateC5 [99, 111, 117, 110, 116] =
      [[49, 50, 51], [52, 53, 54]] := by decide

/-- C6: when a scan succeeds, the returned sequence is exactly the input
tokens that do not start with `-`, verbatim and in order; and scanning a
token that does not start with `-` leaves the parser state (hence every
option's value list) unchanged, returning only that token. -/
theorem claim6_positional (p : CliOptionParser) (args : List Str)
    (s : CliOptionParser) (pos : List Str)
    (h : parse_from p args = some (s, pos)) :
    pos = args.filter (fun a => !(hasPrefix [45] a)) ∧
    ∀ a : Str, hasPrefix [45] a = false →
      parse_from p [a] = some (p, [a]) := by
  constructor
  · simpa using parseFromGo_pos args p [] s pos h
  · intro a ha
    have hdd : hasPrefix [45, 45] a = false := by
      cases hpp : hasPrefix [45, 45] a
      · rfl
      · exact absurd (hasPrefix_dash_of_ddash a hpp) (by simp [ha])
    simp [parse_from, parseFromGo, parseStep, hdd, ha]

/-- The token sequence `["p", "--x", "q"]`. -/
def exArgsC6 : List Str := [[112], [45, 45, 120], [113]]

/-- C6, witness: on `["p", "--x", "q"]` the positional output is
`["p", "q"]`, and the bare token `"p"` passes through an empty parser
untouched. -/
theorem claim6_witness :
    [[112], [113]] = exArgsC6.filter (fun a => !(hasPrefix [45] a)) ∧
    parse_from (new [] []) [[112]] = some (new [] [], [[112]]) := by
  have h : parse_from (new [] []) exArgsC6 =
      some (new [] [], [[112], [113]]) := by decide
  obtain ⟨h1, h2⟩ :=
    claim6_positional (new [] []) exArgsC6 (new [] []) [[112], [113]] h
  exact ⟨h1, h2 [112] (by decide)⟩

/-- C7, counterexample: the claim fails on the token `-<U+00A0>`
(bytes `[45, 194, 160]`): it starts with `-`, its option text resolves to
no registered form, yet scanning it panics (byte index 2 is inside the
two-byte character), instead of vanishing without failure. -/
theorem claim7_counterexample :
    hasPrefix [45] [45, 194, 160] = true ∧
    tokenResolves (new [] []) [45, 194, 160] = false ∧
    parse_from (new [] []) [[45, 194, 160]] = none := by decide

/-- C7, amended: for every token starting with `-` whose option text does
not resolve to a registered short or long form, and which does not trip
the short-form branch's byte split (every ASCII token qualifies),
scanning it changes nothing: the parser state is returned unchanged, no
failure occurs, and the positional output is empty — the token vanishes. -/
theorem claim7_unknown_vanishes (p : CliOptionParser) (a : Str)
    (h1 : hasPrefix [45] a = true)
    (h2 : tokenResolves p a = false)
    (h3 : argSafe a = true) :
    parse_from p [a] = some (p, []) := by
  have hstep := parseStep_unknown p a h1 h2 h3
  simp [parse_from, parseFromGo, hstep]

/-- C7, witness: the unregistered short flag `-z` vanishes on an empty
parser. -/
theorem claim7_witness :
    hasPrefix [45] [45, 122] = true ∧
    tokenResolves (new [] []) [45, 122] = false ∧
    argSafe [45, 122] = true ∧
    parse_from (new [] []) [[45, 122]] = some (new [] [], []) :=
  ⟨by decide, by decide, by decide,
    claim7_unknown_vanishes (new [] []) [45, 122]
      (by decide) (by decide) (by decide)⟩

/-- C8: `is_enabled` is monotonic under scanning — if an option's enabled
flag is true in the state from which the (rest of the) scan runs, it is
still true in the final state.  Since the start state and token list are
universally quantified, this covers every intermediate point of a scan:
no operation reachable through `parse_from` resets an enabled flag. -/
theorem claim8_enabled_monotonic (p : CliOptionParser) (args : List Str)
    (nm : Str) (s : CliOptionParser) (pos : List Str)
    (h : parse_from p args = some (s, pos))
    (he : is_enabled p nm = true) : is_enabled s nm = true :=
  parseFromGo_mono nm args p [] s pos h he

/-- A parser whose option name `c` is already enabled. -/
def exParserC8 : CliOptionParser := enable_option (new [] []) [99]

/-- C8, witness: an enabled flag survives a scan of a positional token and
an unknown long flag. -/
theorem claim8_witness :
    is_enabled ((parse_from exParserC8 [[120], [45, 45, 121]]).getD
      (exParserC8, [])).1 [99] = true := by
  have h : parse_from exParserC8 [[120], [45, 45, 121]] =
      some (exParserC8, [[120]]) := by decide
  have h2 := claim8_enabled_monotonic exParserC8 [[120], [45, 45, 121]] [99]
    exParserC8 [[120]] h (by decide)
  rw [h]
  exact h2

/-- C9: `help_text` is structured as the header, a blank line, one line per
registered option (in the model's table order, one admissible instance of
the unspecified hash-map iteration order) — each line being the short-form
column (blank if absent), the long-form column (blank if absent), and the
help text with every embedded newline followed by the tab-prefixed
continuation indent — then a blank line, the footer, and a trailing blank
line. -/
theorem claim9_help_structure (p : CliOptionParser) :
    help_text p =
      p.header ++ [10, 10] ++
      (p.name_to_cli_option_map.map (fun kv => optionLine kv.2)).flatten ++
      [10] ++ p.footer ++ [10, 10] := by
  simp only [help_text, foldl_optionLine]

/-- C9, witness: the structural equation evaluated on the parser holding
the `count` option. -/
theorem claim9_witness :
    help_text exParserC5 =
      exParserC5.header ++ [10, 10] ++
      (exParserC5.name_to_cli_option_map.map
        (fun kv => optionLine kv.2)).flatten ++
      [10] ++ exParserC5.footer ++ [10, 10] :=
  claim9_help_structure exParserC5

/-- C10: the value-state invariant — a non-empty values list implies the
enabled flag — holds for a fresh parser, is preserved by `registerOption`
(also by the state a failing registration leaves behind) and by any
successful scan, and the queries (pure functions of the state) respect it:
`get_option_values` returns the empty sequence whenever `is_enabled` is
false, so it can never return a non-empty sequence for a disabled name. -/
theorem claim10_values_invariant (hd ft : Str) (p q : CliOptionParser)
    (sf lf : Option Str) (ht nm : Str) (args : List Str)
    (s : CliOptionParser) (pos : List Str) :
    ValuesInv (new hd ft) ∧
    (ValuesInv p → ValuesInv (registerOption p sf lf ht nm).1) ∧
    (ValuesInv q → parse_from q args = some (s, pos) → ValuesInv s) ∧
    (∀ n, is_enabled p n = false → get_option_values p n = []) := by
  refine ⟨?_, ?_, ?_, ?_⟩
  · intro kv hkv
    simp [new] at hkv
  · exact valuesInv_registerOption p sf lf ht nm
  · intro hq hp
    exact valuesInv_parseFromGo args q [] s pos hp hq
  · intro n hn
    simp [get_option_values, hn]

/-- A parser with the option `c` registered under short form `-c`. -/
def exParserC10 : CliOptionParser :=
  (registerOption (new [] []) (some [45, 99]) none [] [99]).1

/-- The state after scanning the value-carrying token `-cx`. -/
def exStateC10 : CliOptionParser :=
  ((parse_from exParserC10 [[45, 99, 120]]).getD (exParserC10, [])).1

/-- C10, witness: the invariant holds after a scan that appends a value,
and a never-enabled name yields the empty sequence. -/
theorem claim10_witness :
    ValuesInv exStateC10 ∧ get_option_values (new [] []) [122] = [] := by
  have hc := claim10_values_invariant [] [] (new [] []) exParserC10
    (some [45, 99]) none [] [99] [[45, 99, 120]] exStateC10 []
  exact ⟨hc.2.2.1 (by decide) (by decide), hc.2.2.2 [122] (by decide)⟩

/-- C4: registration fails exactly when the name is already registered, or
both forms are absent, or a provided short form is already bound, or a
provided long form is already bound; and a successful registration records
the definition, inserts the reverse bindings for the provided forms, and
initialises a disabled, empty value-state entry for the name. -/
theorem claim4_register_contract (p : CliOptionParser) (sf lf : Option Str)
    (ht nm : Str) :
    ((registerOption p sf lf ht nm).2 = true ↔
      (alContains p.name_to_cli_option_map nm = true ∨
       (sf = none ∧ lf = none) ∨
       (∃ s, sf = some s ∧ alContains p.short_form_to_name_map s = true) ∨
       (∃ l, lf = some l ∧ alContains p.long_form_to_name_map l = true))) ∧
    ((registerOption p sf lf ht nm).2 = false →
      (registerOption p sf lf ht nm).1 =
        { name_to_cli_option_map := alInsert p.name_to_cli_option_map nm
            { long_form := lf, short_form := sf, help_text := ht }
          name_to_option_value_map := alInsert p.name_to_option_value_map nm
            { is_enabled := false, values := [] }
          short_form_to_name_map := optInsert p.short_form_to_name_map sf nm
          long_form_to_name_map := optInsert p.long_form_to_name_map lf nm
          header := p.header
          footer := p.footer }) := by
  by_cases hname : alContains p.name_to_cli_option_map nm = true
  · rw [registerOption_dup_eq p sf lf ht nm hname]
    exact ⟨by simp [hname], by simp⟩
  · have hname2 : alContains p.name_to_cli_option_map nm = false := by
      simpa using hname
    cases sf with
    | none =>
        cases lf with
        | none =>
            rw [registerOption_noforms_eq p ht nm hname2]
            exact ⟨by simp, by simp⟩
        | some l =>
            by_cases hl : alContains p.long_form_to_name_map l = true
            · rw [registerOption_longcoll_none_eq p l ht nm hname2 hl]
              exact ⟨by simp [hname2, hl], by simp⟩
            · have hl2 : alContains p.long_form_to_name_map l = false := by
                simpa using hl
              rw [registerOption_success_eq p none (some l) ht nm hname2
                (by simp) (by intro s hs; cases hs)
                (by intro l' hl'; cases hl'; exact hl2)]
              refine ⟨by simp [hname2, hl2], fun _ => rfl⟩
    | some s =>
        by_cases hs : alContains p.short_form_to_name_map s = true
        · rw [registerOption_shortcoll_eq p s lf ht nm hname2 hs]
          exact ⟨by simp [hname2, hs], by simp⟩
        · have hs2 : alContains p.short_form_to_name_map s = false := by
            simpa using hs
          cases lf with
          | none =>
              rw [registerOption_success_eq p (some s) none ht nm hname2
                (by simp) (by intro s' hs'; cases hs'; exact hs2)
                (by intro l hl; cases hl)]
              refine ⟨by simp [hname2, hs2], fun _ => rfl⟩
          | some l =>
              by_cases hl : alContains p.long_form_to_name_map l = true
              · rw [registerOption_longcoll_some_eq p s l ht nm hname2 hs2 hl]
                exact ⟨by simp [hname2, hs2, hl], by simp⟩
              · have hl2 : alContains p.long_form_to_name_map l = false := by
                  simpa using hl
                rw [registerOption_success_eq p (some s) (some l) ht nm hname2
                  (by simp) (by intro s' hs'; cases hs'; exact hs2)
                  (by intro l' hl'; cases hl'; exact hl2)]
                refine ⟨by simp [hname2, hs2, hl2], fun _ => rfl⟩

/-- C4, witness: the contract applied to registering short form `-c` under
name `c` in a fresh parser — the success branch yields exactly the four
updated tables. -/
theorem claim4_witness :
    (registerOption (new [] []) (some [45, 99]) none [] [99]).1 =
      { name_to_cli_option_map :=
          [([99], { long_form := none, short_form := some [45, 99],
                    help_text := [] })]
        name_to_option_value_map :=
          [([99], { is_enabled := false, values := [] })]
        short_form_to_name_map := [([45, 99], [99])]
        long_form_to_name_map := []
        header := []
        footer := [] } := by
  have h := (claim4_register_contract (new [] []) (some [45, 99]) none
    [] [99]).2 (by decide)
  exact h.trans (by decide)

/-- C3, corrected: a failing registration never touches the definitions
table, the value-state table or the long-form index; the duplicate-name,
both-forms-absent and short-form-collision failures occur before any table
is modified, but the long-form-collision failure occurs after the provided
short form has been inserted, and that reverse binding is left behind. -/
theorem claim3_failure_state (p : CliOptionParser) (sf lf : Option Str)
    (ht nm : Str) (h : (registerOption p sf lf ht nm).2 = true) :
    ((registerOption p sf lf ht nm).1.name_to_cli_option_map =
        p.name_to_cli_option_map ∧
      (registerOption p sf lf ht nm).1.name_to_option_value_map =
        p.name_to_option_value_map ∧
      (registerOption p sf lf ht nm).1.long_form_to_name_map =
        p.long_form_to_name_map) ∧
    ((registerOption p sf lf ht nm).1 = p ∨
      ∃ s l, sf = some s ∧ lf = some l ∧
        alContains p.short_form_to_name_map s = false ∧
        alContains p.long_form_to_name_map l = true ∧
        (registerOption p sf lf ht nm).1 =
          { p with short_form_to_name_map :=
              alInsert p.short_form_to_name_map s nm }) := by
  by_cases hname : alContains p.name_to_cli_option_map nm = true
  · rw [registerOption_dup_eq p sf lf ht nm hname]
    exact ⟨⟨rfl, rfl, rfl⟩, Or.inl rfl⟩
  · have hname2 : alContains p.name_to_cli_option_map nm = false := by
      simpa using hname
    cases sf with
    | none =>
        cases lf with
        | none =>
            rw [registerOption_noforms_eq p ht nm hname2]
            exact ⟨⟨rfl, rfl, rfl⟩, Or.inl rfl⟩
        | some l =>
            by_cases hl : alContains p.long_form_to_name_map l = true
            · rw [registerOption_longcoll_none_eq p l ht nm hname2 hl]
              exact ⟨⟨rfl, rfl, rfl⟩, Or.inl rfl⟩
            · have hl2 : alContains p.long_form_to_name_map l = false := by
                simpa using hl
              rw [registerOption_success_eq p none (some l) ht nm hname2
                (by simp) (by intro s hs; cases hs)
                (by intro l' hl'; cases hl'; exact hl2)] at h
              simp at h
    | some s =>
        by_cases hs : alContains p.short_form_to_name_map s = true
        · rw [registerOption_shortcoll_eq p s lf ht nm hname2 hs]
          exact ⟨⟨rfl, rfl, rfl⟩, Or.inl rfl⟩
        · have hs2 : alContains p.short_form_to_name_map s = false := by
            simpa using hs
          cases lf with
          | none =>
              rw [registerOption_success_eq p (some s) none ht nm hname2
                (by simp) (by intro s' hs'; cases hs'; exact hs2)
                (by intro l hl; cases hl)] at h
              simp at h
          | some l =>
              by_cases hl : alContains p.long_form_to_name_map l = true
              · rw [registerOption_longcoll_some_eq p s l ht nm hname2 hs2 hl]
                exact ⟨⟨rfl, rfl, rfl⟩,
                  Or.inr ⟨s, l, rfl, rfl, hs2, hl, rfl⟩⟩
              · have hl2 : alContains p.long_form_to_name_map l = false := by
                  simpa using hl
                rw [registerOption_success_eq p (some s) (some l) ht nm hname2
                  (by simp) (by intro s' hs'; cases hs'; exact hs2)
                  (by intro l' hl'; cases hl'; exact hl2)] at h
                simp at h

/-- A parser with the option `a` registered under long form `--x` only. -/
def exParserC3 : CliOptionParser :=
  (registerOption (new [] []) none (some [45, 45, 120]) [] [97]).1

/-- C3, counterexample: registering `b` with the fresh short form `-b` and
the colliding long form `--x` fails, yet the short-form index has been
modified before the failure — the claimed atomicity does not hold. -/
theorem claim3_counterexample :
    (registerOption exParserC3 (some [45, 98]) (some [45, 45, 120])
      [] [98]).2 = true ∧
    (registerOption exParserC3 (some [45, 98]) (some [45, 45, 120])
      [] [98]).1.short_form_to_name_map ≠
      exParserC3.short_form_to_name_map := by decide

/-- C3, witness: the amended statement applied to the long-form-collision
scenario — the value-state table is untouched by the failing call. -/
theorem claim3_witness :
    (registerOption exParserC3 (some [45, 98]) (some [45, 45, 120])
      [] [98]).1.name_to_option_value_map =
      exParserC3.name_to_option_value_map :=
  ((claim3_failure_state exParserC3 (some [45, 98]) (some [45, 45, 120])
    [] [98] (by decide)).1).2.1

end CliSpec
